import Mathlib

/-!
Verification of the in-memory task-tracking HTTP API (src/server.js).

The server keeps an ordered list of task records and a monotonically
increasing id counter in process memory, and exposes CRUD, filter and
statistics operations over it.  We embed the data model and each route
handler as pure Lean functions: request bodies become records of
`Option String` fields (a JSON field that is absent is `none`), the
store is threaded explicitly, and timestamps are abstract `Nat` values
supplied as a `now` argument.
-/

namespace TaskApi

/-- A task record, as stored in the `tasks` array of server.js. -/
structure Task where
  id : Nat
  title : String
  description : String
  status : String
  priority : String
  createdAt : Nat
  updatedAt : Nat
deriving Repr, DecidableEq

/-- The process-wide mutable state: the task array and the id counter. -/
structure Store where
  tasks : List Task
  nextId : Nat
deriving Repr, DecidableEq

/-- First seed task (server.js lines 13-21). -/
def seedTask1 (now0 : Nat) : Task :=
  { id := 1, title := "Learn Node.js", description := "Complete Node.js tutorial",
    status := "pending", priority := "high", createdAt := now0, updatedAt := now0 }

/-- Second seed task (server.js lines 22-30). -/
def seedTask2 (now0 : Nat) : Task :=
  { id := 2, title := "Build API", description := "Create REST API for task management",
    status := "in-progress", priority := "medium", createdAt := now0, updatedAt := now0 }

/-- The store at startup: two seed tasks, `nextId = 3` (server.js lines 12-33). -/
def initialStore (now0 : Nat) : Store :=
  { tasks := [seedTask1 now0, seedTask2 now0], nextId := 3 }

/-- JavaScript truthiness of a possibly-absent string field:
`undefined` and `""` are falsy, every other string is truthy. -/
def jsTruthy : Option String → Bool
  | none => false
  | some s => !s.isEmpty

/-- JavaScript `s.trim()`: drop leading and trailing whitespace. -/
def jsTrim (s : String) : String :=
  ⟨((s.data.dropWhile Char.isWhitespace).reverse.dropWhile Char.isWhitespace).reverse⟩

/-- JavaScript `s.toLowerCase()`: character-wise lowering. -/
def jsToLower (s : String) : String :=
  ⟨s.data.map Char.toLower⟩

/-- Value of a hexadecimal digit character, if any. -/
def hexVal? (c : Char) : Option Nat :=
  if '0' ≤ c ∧ c ≤ '9' then some (c.toNat - '0'.toNat)
  else if 'a' ≤ c ∧ c ≤ 'f' then some (c.toNat - 'a'.toNat + 10)
  else if 'A' ≤ c ∧ c ≤ 'F' then some (c.toNat - 'A'.toNat + 10)
  else none

/-- Accumulate the longest prefix of digits valid in `radix`; `none`
means no digit has been consumed yet (JS `parseInt` returns `NaN` then). -/
def takeDigits (radix : Nat) : List Char → Option Nat → Option Nat
  | [], acc => acc
  | c :: cs, acc =>
    match hexVal? c with
    | some v => if v < radix then takeDigits radix cs (some (acc.getD 0 * radix + v)) else acc
    | none => acc

/-- JavaScript `parseInt(s)` with no explicit radix: skip leading
whitespace, read an optional sign, switch to radix 16 after a `0x`/`0X`
prefix, then consume the longest digit prefix; `none` models `NaN`. -/
def parseIntJS (s : String) : Option Int :=
  let cs := s.data.dropWhile Char.isWhitespace
  let signed : Int × List Char :=
    match cs with
    | '-' :: rest => (-1, rest)
    | '+' :: rest => (1, rest)
    | _ => (1, cs)
  let based : Nat × List Char :=
    match signed.2 with
    | '0' :: 'x' :: rest => (16, rest)
    | '0' :: 'X' :: rest => (16, rest)
    | _ => (10, signed.2)
  match takeDigits based.1 based.2 none with
  | some n => some (signed.1 * n)
  | none => none

/-- `task.id === parseInt(idStr)`: `NaN` (`none`) matches nothing. -/
def idMatches (idStr : String) (t : Task) : Bool :=
  match parseIntJS idStr with
  | some n => (t.id : Int) == n
  | none => false

/-- `findTaskById` (server.js lines 36-38): first task whose id equals
the parsed identifier. -/
def findTaskById (tasks : List Task) (idStr : String) : Option Task :=
  tasks.find? (idMatches idStr)

/-- The error responses the handlers produce. -/
inductive ApiError
  | notFound
  | requiredFields
  | badPriority
  | badStatus
deriving Repr, DecidableEq

/-- HTTP status code of each error response. -/
def ApiError.httpStatus : ApiError → Nat
  | .notFound => 404
  | .requiredFields => 400
  | .badPriority => 400
  | .badStatus => 400

/-- `message` string of each error response. -/
def ApiError.message : ApiError → String
  | .notFound => "Task not found"
  | .requiredFields => "Title and description are required"
  | .badPriority => "Priority must be: low, medium, or high"
  | .badStatus => "Status must be: pending, in-progress, or completed"

/-- The legal priority values (server.js lines 98, 145). -/
def validPriorities : List String := ["low", "medium", "high"]

/-- The legal status values (server.js line 138). -/
def validStatuses : List String := ["pending", "in-progress", "completed"]

/-- Query parameters of `GET /api/tasks`. -/
structure ListQuery where
  status : Option String
  priority : Option String

/-- `GET /api/tasks` (server.js lines 43-67): filter by status when the
`status` query parameter is truthy, then by priority likewise. -/
def listTasks (st : Store) (q : ListQuery) : List Task :=
  let filtered := st.tasks
  let filtered :=
    if jsTruthy q.status then
      filtered.filter (fun t => jsToLower t.status == jsToLower (q.status.getD ""))
    else filtered
  let filtered :=
    if jsTruthy q.priority then
      filtered.filter (fun t => jsToLower t.priority == jsToLower (q.priority.getD ""))
    else filtered
  filtered

/-- `GET /api/tasks/:id` (server.js lines 70-84). -/
def getTask (st : Store) (idStr : String) : Except ApiError Task :=
  match findTaskById st.tasks idStr with
  | none => .error .notFound
  | some t => .ok t

/-- Body of `POST /api/tasks`; `priority` defaults to `"medium"` only
when the field is absent (destructuring default). -/
structure CreateReq where
  title : Option String
  description : Option String
  priority : Option String

/-- `POST /api/tasks` (server.js lines 87-122): reject falsy title or
description, reject a priority outside the legal set, otherwise append
a fresh task with the next id and bump the counter. -/
def createTask (st : Store) (req : CreateReq) (now : Nat) : Except ApiError Task × Store :=
  if ¬ (jsTruthy req.title && jsTruthy req.description) then
    (.error .requiredFields, st)
  else
    let priority := req.priority.getD "medium"
    if jsToLower priority ∈ validPriorities then
      let newTask : Task :=
        { id := st.nextId, title := jsTrim (req.title.getD ""),
          description := jsTrim (req.description.getD ""),
          status := "pending", priority := jsToLower priority,
          createdAt := now, updatedAt := now }
      (.ok newTask, { tasks := st.tasks ++ [newTask], nextId := st.nextId + 1 })
    else
      (.error .badPriority, st)

/-- Body of `PUT /api/tasks/:id`. -/
structure UpdateReq where
  title : Option String
  description : Option String
  status : Option String
  priority : Option String

/-- The in-place mutation of the found task (server.js lines 153-157):
each truthy field overwrites, then `updatedAt` is stamped. -/
def applyUpdate (req : UpdateReq) (now : Nat) (t : Task) : Task :=
  let t := if jsTruthy req.title then { t with title := jsTrim (req.title.getD "") } else t
  let t := if jsTruthy req.description then
    { t with description := jsTrim (req.description.getD "") } else t
  let t := if jsTruthy req.status then { t with status := jsToLower (req.status.getD "") } else t
  let t := if jsTruthy req.priority then
    { t with priority := jsToLower (req.priority.getD "") } else t
  { t with updatedAt := now }

/-- Replace the first element satisfying `p` by its image under `f`;
this is how mutating the aliased object found by `find` acts on the array. -/
def updateFirst (p : Task → Bool) (f : Task → Task) : List Task → List Task
  | [] => []
  | t :: ts => if p t then f t :: ts else t :: updateFirst p f ts

/-- `PUT /api/tasks/:id` (server.js lines 125-164): 404 when the id is
absent, validate supplied status and priority, then mutate the found
task in place. -/
def updateTask (st : Store) (idStr : String) (req : UpdateReq) (now : Nat) :
    Except ApiError Task × Store :=
  match findTaskById st.tasks idStr with
  | none => (.error .notFound, st)
  | some task =>
    if jsTruthy req.status && !(jsToLower (req.status.getD "") ∈ validStatuses : Bool) then
      (.error .badStatus, st)
    else if jsTruthy req.priority && !(jsToLower (req.priority.getD "") ∈ validPriorities : Bool) then
      (.error .badPriority, st)
    else
      let task := applyUpdate req now task
      (.ok task, { st with tasks := updateFirst (idMatches idStr) (applyUpdate req now) st.tasks })

/-- `DELETE /api/tasks/:id` (server.js lines 167-184): find the index of
the first matching task, splice it out and return it. -/
def deleteTask (st : Store) (idStr : String) : Except ApiError Task × Store :=
  match st.tasks.findIdx? (idMatches idStr) with
  | none => (.error .notFound, st)
  | some i =>
    match st.tasks.get? i with
    | none => (.error .notFound, st)
    | some t => (.ok t, { st with tasks := st.tasks.eraseIdx i })

/-- The statistics record of `GET /api/stats`. -/
structure Stats where
  total : Nat
  pending : Nat
  inProgress : Nat
  completed : Nat
  high : Nat
  medium : Nat
  low : Nat
deriving Repr, DecidableEq

/-- `GET /api/stats` (server.js lines 187-204): counts computed freshly
from the collection with exact string comparisons. -/
def getStats (st : Store) : Stats :=
  { total := st.tasks.length
    pending := (st.tasks.filter (fun t => t.status == "pending")).length
    inProgress := (st.tasks.filter (fun t => t.status == "in-progress")).length
    completed := (st.tasks.filter (fun t => t.status == "completed")).length
    high := (st.tasks.filter (fun t => t.priority == "high")).length
    medium := (st.tasks.filter (fun t => t.priority == "medium")).length
    low := (st.tasks.filter (fun t => t.priority == "low")).length }

/-- One client request, abstracted to its effect on the store. -/
inductive Op
  | list (q : ListQuery)
  | get (idStr : String)
  | create (req : CreateReq) (now : Nat)
  | update (idStr : String) (req : UpdateReq) (now : Nat)
  | delete (idStr : String)
  | stats

/-- The store after handling one request. -/
def applyOp (st : Store) : Op → Store
  | .list _ => st
  | .get _ => st
  | .stats => st
  | .create req now => (createTask st req now).2
  | .update idStr req now => (updateTask st idStr req now).2
  | .delete idStr => (deleteTask st idStr).2

/-- The store after a sequence of requests. -/
def runOps (st : Store) (ops : List Op) : Store :=
  ops.foldl applyOp st

/-- The ids issued by the successful creates of a request sequence, in order. -/
def createdIds (st : Store) : List Op → List Nat
  | [] => []
  | op :: ops =>
    match op with
    | .create req now =>
      match createTask st req now with
      | (.ok t, st2) => t.id :: createdIds st2 ops
      | (.error _, st2) => createdIds st2 ops
    | _ => createdIds (applyOp st op) ops

/-- The reachable store states: the startup state and everything a
sequence of requests produces from it. -/
inductive Reachable : Store → Prop
  | init (now0 : Nat) : Reachable (initialStore now0)
  | step {st : Store} (op : Op) : Reachable st → Reachable (applyOp st op)

/-! ### Basic lemmas about the embedded operations -/

theorem jsTruthy_some {s : String} : jsTruthy (some s) = true ↔ s ≠ "" := by
  have := String.isEmpty_iff s
  unfold jsTruthy
  cases hs : s.isEmpty <;> simp_all

theorem jsTruthy_eq_false {o : Option String} :
    jsTruthy o = false ↔ o = none ∨ o = some "" := by
  cases o with
  | none => simp [jsTruthy]
  | some s => simp [jsTruthy, String.isEmpty_iff]

theorem idMatches_iff {idStr : String} {t : Task} :
    idMatches idStr t = true ↔ parseIntJS idStr = some (t.id : Int) := by
  unfold idMatches
  cases h : parseIntJS idStr with
  | none => simp
  | some n =>
    simp only [beq_iff_eq, Option.some.injEq]
    exact ⟨fun h2 => h2.symm, fun h2 => h2.symm⟩

/-- The task a successful create builds (the `newTask` object of the source). -/
def newTaskOf (st : Store) (req : CreateReq) (now : Nat) : Task :=
  { id := st.nextId, title := jsTrim (req.title.getD ""),
    description := jsTrim (req.description.getD ""),
    status := "pending", priority := jsToLower (req.priority.getD "medium"),
    createdAt := now, updatedAt := now }

/-- Anatomy of a create: either it is rejected and the store is untouched,
or every validation passed and the fresh task is appended. -/
theorem createTask_cases (st : Store) (req : CreateReq) (now : Nat) :
    (∃ e, e ≠ ApiError.notFound ∧ createTask st req now = (.error e, st)) ∨
    (jsTruthy req.title = true ∧ jsTruthy req.description = true ∧
     jsToLower (req.priority.getD "medium") ∈ validPriorities ∧
     createTask st req now =
       (.ok (newTaskOf st req now),
        { tasks := st.tasks ++ [newTaskOf st req now], nextId := st.nextId + 1 })) := by
  simp only [createTask]
  split
  · exact .inl ⟨_, by simp, rfl⟩
  · rename_i hcond
    rw [not_not, Bool.and_eq_true] at hcond
    split
    · rename_i hmem
      exact .inr ⟨hcond.1, hcond.2, hmem, rfl⟩
    · exact .inl ⟨_, by simp, rfl⟩

/-- A rejected create leaves the store untouched. -/
theorem createTask_error_store {st : Store} {req : CreateReq} {now : Nat} {e : ApiError}
    (h : (createTask st req now).1 = .error e) : (createTask st req now).2 = st := by
  rcases createTask_cases st req now with ⟨e2, _, h2⟩ | ⟨_, _, _, h2⟩ <;> rw [h2]
  rw [h2] at h
  simp at h

/-- The split of a list at the first element its `find?` returns. -/
theorem find?_split {p : Task → Bool} : ∀ {l : List Task} {t : Task},
    l.find? p = some t →
    ∃ pre post, l = pre ++ t :: post ∧ p t = true ∧ ∀ u ∈ pre, p u = false
  | [], t, h => by simp at h
  | a :: l, t, h => by
    by_cases ha : p a
    · rw [List.find?_cons_of_pos _ ha] at h
      cases h
      exact ⟨[], l, rfl, ha, by simp⟩
    · rw [List.find?_cons_of_neg _ ha] at h
      obtain ⟨pre, post, hl, hp, hpre⟩ := find?_split h
      refine ⟨a :: pre, post, by rw [hl]; rfl, hp, ?_⟩
      intro u hu
      rcases List.mem_cons.mp hu with h1 | h1
      · exact h1 ▸ eq_false_of_ne_true (by simpa using ha)
      · exact hpre u h1

/-- `updateFirst` on a list split at its first match rewrites only the match. -/
theorem updateFirst_append_cons {p : Task → Bool} {f : Task → Task} :
    ∀ {pre : List Task} (t : Task) (post : List Task),
    (∀ u ∈ pre, p u = false) → p t = true →
    updateFirst p f (pre ++ t :: post) = pre ++ f t :: post
  | [], t, post, _, hpt => by simp [updateFirst, hpt]
  | a :: pre, t, post, hpre, hpt => by
    have ha : p a = false := hpre a (by simp)
    simp only [List.cons_append, updateFirst, ha, Bool.false_eq_true, if_false, List.append_eq]
    rw [updateFirst_append_cons t post (fun u hu => hpre u (List.mem_cons_of_mem a hu)) hpt]

/-- The split of a list at the index its `findIdx?` returns. -/
theorem findIdx?_split {p : Task → Bool} : ∀ {l : List Task} {i j : Nat},
    List.findIdx? p l i = some j →
    ∃ pre t post, l = pre ++ t :: post ∧ i + pre.length = j ∧ p t = true ∧
      ∀ u ∈ pre, p u = false
  | [], i, j, h => by simp [List.findIdx?] at h
  | a :: l, i, j, h => by
    by_cases ha : p a
    · refine ⟨[], a, l, rfl, ?_, ha, by simp⟩
      simp [List.findIdx?, ha] at h
      simpa using h
    · have h' : List.findIdx? p l (i + 1) = some j := by
        simpa [List.findIdx?, ha] using h
      obtain ⟨pre, t, post, hl, hi, hp, hpre⟩ := findIdx?_split h'
      refine ⟨a :: pre, t, post, by rw [hl]; rfl, by simpa [Nat.add_comm, Nat.add_assoc,
        Nat.add_left_comm] using hi, hp, ?_⟩
      intro u hu
      rcases List.mem_cons.mp hu with h1 | h1
      · exact h1 ▸ eq_false_of_ne_true (by simpa using ha)
      · exact hpre u h1

theorem get?_append_cons : ∀ (pre : List Task) (t : Task) (post : List Task),
    (pre ++ t :: post).get? pre.length = some t
  | [], t, post => rfl
  | a :: pre, t, post => get?_append_cons pre t post

theorem eraseIdx_append_cons : ∀ (pre : List Task) (t : Task) (post : List Task),
    (pre ++ t :: post).eraseIdx pre.length = pre ++ post
  | [], t, post => rfl
  | a :: pre, t, post => by
    simp only [List.cons_append, List.eraseIdx, List.append_eq, eraseIdx_append_cons pre t post]

/-- The fields of the task an update mutates: identity and creation data
survive, `updatedAt` becomes `now`, and each content field is either kept
or overwritten with the (trimmed / lowercased) supplied value. -/
theorem applyUpdate_fields (req : UpdateReq) (now : Nat) (t : Task) :
    (applyUpdate req now t).id = t.id ∧
    (applyUpdate req now t).createdAt = t.createdAt ∧
    (applyUpdate req now t).updatedAt = now ∧
    ((applyUpdate req now t).title = t.title ∨
      (applyUpdate req now t).title = jsTrim (req.title.getD "")) ∧
    ((applyUpdate req now t).description = t.description ∨
      (applyUpdate req now t).description = jsTrim (req.description.getD "")) ∧
    ((applyUpdate req now t).status = t.status ∨
      (jsTruthy req.status = true ∧
        (applyUpdate req now t).status = jsToLower (req.status.getD ""))) ∧
    ((applyUpdate req now t).priority = t.priority ∨
      (jsTruthy req.priority = true ∧
        (applyUpdate req now t).priority = jsToLower (req.priority.getD ""))) := by
  simp only [applyUpdate]
  by_cases h1 : jsTruthy req.title <;> by_cases h2 : jsTruthy req.description <;>
    by_cases h3 : jsTruthy req.status <;> by_cases h4 : jsTruthy req.priority <;>
      simp [h1, h2, h3, h4]

/-- When every field of the request is falsy, the mutation only stamps
`updatedAt`. -/
theorem applyUpdate_noop {req : UpdateReq} (now : Nat) (t : Task)
    (h1 : jsTruthy req.title = false) (h2 : jsTruthy req.description = false)
    (h3 : jsTruthy req.status = false) (h4 : jsTruthy req.priority = false) :
    applyUpdate req now t = { t with updatedAt := now } := by
  simp [applyUpdate, h1, h2, h3, h4]

/-- Replacing one task by one with the same id keeps ids pairwise distinct. -/
theorem pairwise_ids_replace {pre post : List Task} {t t2 : Task} (hid : t2.id = t.id)
    (h : (pre ++ t :: post).Pairwise fun a b => a.id ≠ b.id) :
    (pre ++ t2 :: post).Pairwise fun a b => a.id ≠ b.id := by
  rw [List.pairwise_append] at h ⊢
  obtain ⟨h1, h2, h3⟩ := h
  rw [List.pairwise_cons] at h2 ⊢
  refine ⟨h1, ⟨fun u hu => hid ▸ h2.1 u hu, h2.2⟩, ?_⟩
  intro a ha b hb
  rcases List.mem_cons.mp hb with rfl | hb2
  · exact hid ▸ h3 a ha t (by simp)
  · exact h3 a ha b (by simp [hb2])

/-! ### The data-integrity invariant of reachable stores -/

/-- The well-formedness invariant maintained by every request handler:
`status` and `priority` are legal lowercase values, ids are pairwise
distinct and below the counter, the counter never falls below its seed
value 3, and title and description are trimmed strings. -/
structure WF (st : Store) : Prop where
  statusOk : ∀ t ∈ st.tasks, t.status ∈ validStatuses
  priorityOk : ∀ t ∈ st.tasks, t.priority ∈ validPriorities
  idLt : ∀ t ∈ st.tasks, t.id < st.nextId
  distinct : st.tasks.Pairwise fun a b => a.id ≠ b.id
  nextGe : 3 ≤ st.nextId
  titleTrim : ∀ t ∈ st.tasks, ∃ s : String, t.title = jsTrim s
  descTrim : ∀ t ∈ st.tasks, ∃ s : String, t.description = jsTrim s

theorem wf_initial (now0 : Nat) : WF (initialStore now0) := by
  refine ⟨?_, ?_, ?_, ?_, ?_, ?_, ?_⟩
  · intro t ht
    rcases by simpa [initialStore] using ht with rfl | rfl <;>
      simp [seedTask1, seedTask2, validStatuses]
  · intro t ht
    rcases by simpa [initialStore] using ht with rfl | rfl <;>
      simp [seedTask1, seedTask2, validPriorities]
  · intro t ht
    rcases by simpa [initialStore] using ht with rfl | rfl <;>
      simp [seedTask1, seedTask2, initialStore]
  · simp [initialStore, seedTask1, seedTask2]
  · exact Nat.le_refl 3
  · intro t ht
    rcases by simpa [initialStore] using ht with rfl | rfl
    · exact ⟨"Learn Node.js", show "Learn Node.js" = jsTrim "Learn Node.js" from by decide⟩
    · exact ⟨"Build API", show "Build API" = jsTrim "Build API" from by decide⟩
  · intro t ht
    rcases by simpa [initialStore] using ht with rfl | rfl
    · exact ⟨"Complete Node.js tutorial",
        show "Complete Node.js tutorial" = jsTrim "Complete Node.js tutorial" from by decide⟩
    · exact ⟨"Create REST API for task management",
        show "Create REST API for task management" =
          jsTrim "Create REST API for task management" from by decide⟩

/-- Removing tasks (keeping order) preserves the invariant. -/
theorem wf_of_sublist {st : Store} (h : WF st) {l : List Task} (hsub : l.Sublist st.tasks) :
    WF { st with tasks := l } := by
  refine ⟨?_, ?_, ?_, ?_, h.nextGe, ?_, ?_⟩
  · exact fun t ht => h.statusOk t (hsub.subset ht)
  · exact fun t ht => h.priorityOk t (hsub.subset ht)
  · exact fun t ht => h.idLt t (hsub.subset ht)
  · exact h.distinct.sublist hsub
  · exact fun t ht => h.titleTrim t (hsub.subset ht)
  · exact fun t ht => h.descTrim t (hsub.subset ht)

/-- Every request handler preserves the invariant. -/
theorem wf_applyOp {st : Store} (h : WF st) (op : Op) : WF (applyOp st op) := by
  cases op with
  | list q => exact h
  | get idStr => exact h
  | stats => exact h
  | create req now =>
    show WF (createTask st req now).2
    rcases createTask_cases st req now with ⟨e, _, hc⟩ | ⟨_, _, hp, hc⟩
    · rw [hc]
      exact h
    · rw [hc]
      refine ⟨?_, ?_, ?_, ?_, Nat.le_succ_of_le h.nextGe, ?_, ?_⟩
      · intro t ht
        rcases List.mem_append.mp ht with h1 | h1
        · exact h.statusOk t h1
        · rcases List.mem_singleton.mp h1 with rfl
          simp [newTaskOf, validStatuses]
      · intro t ht
        rcases List.mem_append.mp ht with h1 | h1
        · exact h.priorityOk t h1
        · rcases List.mem_singleton.mp h1 with rfl
          exact hp
      · intro t ht
        rcases List.mem_append.mp ht with h1 | h1
        · exact Nat.lt_succ_of_lt (h.idLt t h1)
        · rcases List.mem_singleton.mp h1 with rfl
          exact Nat.lt_succ_self _
      · rw [List.pairwise_append]
        refine ⟨h.distinct, List.pairwise_singleton _ _, ?_⟩
        intro a ha b hb
        rcases List.mem_singleton.mp hb with rfl
        exact Nat.ne_of_lt (h.idLt a ha)
      · intro t ht
        rcases List.mem_append.mp ht with h1 | h1
        · exact h.titleTrim t h1
        · rcases List.mem_singleton.mp h1 with rfl
          exact ⟨req.title.getD "", rfl⟩
      · intro t ht
        rcases List.mem_append.mp ht with h1 | h1
        · exact h.descTrim t h1
        · rcases List.mem_singleton.mp h1 with rfl
          exact ⟨req.description.getD "", rfl⟩
  | update idStr req now =>
    show WF (updateTask st idStr req now).2
    unfold updateTask
    split
    · exact h
    rename_i task hf
    split
    · exact h
    rename_i hs2
    split
    · exact h
    rename_i hp2
    have hstat : jsTruthy req.status = true →
        jsToLower (req.status.getD "") ∈ validStatuses := by
      intro hjs
      by_contra hm
      exact hs2 (by simp [hjs, hm])
    have hprio : jsTruthy req.priority = true →
        jsToLower (req.priority.getD "") ∈ validPriorities := by
      intro hjs
      by_contra hm
      exact hp2 (by simp [hjs, hm])
    obtain ⟨pre, post, hl, hpt, hpre⟩ := find?_split hf
    show WF { st with tasks := updateFirst (idMatches idStr) (applyUpdate req now) st.tasks }
    rw [hl, updateFirst_append_cons task post hpre hpt]
    obtain ⟨hid, _, _, htl, hds, hst, hpr⟩ := applyUpdate_fields req now task
    have htask : task ∈ st.tasks := List.mem_of_find?_eq_some hf
    have hmem2 : ∀ t, t ∈ pre ++ applyUpdate req now task :: post →
        t ∈ st.tasks ∨ t = applyUpdate req now task := by
      intro t ht
      rcases List.mem_append.mp ht with h1 | h1
      · exact .inl (hl ▸ List.mem_append.mpr (.inl h1))
      · rcases List.mem_cons.mp h1 with rfl | h1
        · exact .inr rfl
        · exact .inl (hl ▸ List.mem_append.mpr (.inr (List.mem_cons_of_mem _ h1)))
    refine ⟨?_, ?_, ?_, ?_, h.nextGe, ?_, ?_⟩
    · intro t ht
      rcases hmem2 t ht with h1 | rfl
      · exact h.statusOk t h1
      · rcases hst with h1 | ⟨h1, h2⟩
        · exact h1 ▸ h.statusOk task htask
        · exact h2 ▸ hstat h1
    · intro t ht
      rcases hmem2 t ht with h1 | rfl
      · exact h.priorityOk t h1
      · rcases hpr with h1 | ⟨h1, h2⟩
        · exact h1 ▸ h.priorityOk task htask
        · exact h2 ▸ hprio h1
    · intro t ht
      rcases hmem2 t ht with h1 | rfl
      · exact h.idLt t h1
      · exact hid ▸ h.idLt task htask
    · exact pairwise_ids_replace hid (hl ▸ h.distinct)
    · intro t ht
      rcases hmem2 t ht with h1 | rfl
      · exact h.titleTrim t h1
      · rcases htl with h1 | h1
        · exact h1 ▸ h.titleTrim task htask
        · exact ⟨req.title.getD "", h1⟩
    · intro t ht
      rcases hmem2 t ht with h1 | rfl
      · exact h.descTrim t h1
      · rcases hds with h1 | h1
        · exact h1 ▸ h.descTrim task htask
        · exact ⟨req.description.getD "", h1⟩
  | delete idStr =>
    show WF (deleteTask st idStr).2
    unfold deleteTask
    split
    · exact h
    split
    · exact h
    exact wf_of_sublist h (List.eraseIdx_sublist st.tasks _)

/-- Every reachable store state is well formed. -/
theorem reachable_wf {st : Store} (h : Reachable st) : WF st := by
  induction h with
  | init now0 => exact wf_initial now0
  | step op _ ih => exact wf_applyOp ih op

/-- A list in which every element carries one of three distinct labels is
partitioned by the three label filters. -/
theorem filter_three_partition (l : List Task) (f : Task → String) (a b c : String)
    (hab : a ≠ b) (hac : a ≠ c) (hbc : b ≠ c)
    (h : ∀ t ∈ l, f t = a ∨ f t = b ∨ f t = c) :
    (l.filter fun t => f t == a).length + (l.filter fun t => f t == b).length +
      (l.filter fun t => f t == c).length = l.length := by
  induction l with
  | nil => simp
  | cons x xs ih =>
    have hx := h x (List.mem_cons_self x xs)
    have ih2 := ih fun t ht => h t (List.mem_cons_of_mem x ht)
    rcases hx with h1 | h1 | h1 <;>
      simp only [List.filter_cons, h1, beq_iff_eq, if_pos, if_neg, hab, hac, hbc,
        Ne.symm hab, Ne.symm hac, Ne.symm hbc, ite_true, ite_false, List.length_cons,
        if_true, if_false, eq_self_iff_true, List.length] <;>
      omega

/-- No handler ever decreases the id counter. -/
theorem applyOp_nextId_mono (st : Store) (op : Op) : st.nextId ≤ (applyOp st op).nextId := by
  cases op with
  | list q => exact Nat.le_refl _
  | get idStr => exact Nat.le_refl _
  | stats => exact Nat.le_refl _
  | create req now =>
    show st.nextId ≤ (createTask st req now).2.nextId
    rcases createTask_cases st req now with ⟨e, _, hc⟩ | ⟨_, _, _, hc⟩ <;> rw [hc] <;> simp
  | update idStr req now =>
    show st.nextId ≤ (updateTask st idStr req now).2.nextId
    unfold updateTask
    split
    · exact Nat.le_refl _
    split
    · exact Nat.le_refl _
    split
    · exact Nat.le_refl _
    exact Nat.le_refl _
  | delete idStr =>
    show st.nextId ≤ (deleteTask st idStr).2.nextId
    unfold deleteTask
    split
    · exact Nat.le_refl _
    split
    · exact Nat.le_refl _
    exact Nat.le_refl _

/-- Only a successful create moves the id counter, and only by one. -/
theorem updateTask_nextId (st : Store) (idStr : String) (req : UpdateReq) (now : Nat) :
    (updateTask st idStr req now).2.nextId = st.nextId := by
  unfold updateTask
  split
  · rfl
  split
  · rfl
  split
  · rfl
  rfl

theorem deleteTask_nextId (st : Store) (idStr : String) :
    (deleteTask st idStr).2.nextId = st.nextId := by
  unfold deleteTask
  split
  · rfl
  split
  · rfl
  rfl

theorem runOps_nextId_mono (st : Store) (ops : List Op) :
    st.nextId ≤ (runOps st ops).nextId := by
  induction ops generalizing st with
  | nil => exact Nat.le_refl _
  | cons op ops ih =>
    exact Nat.le_trans (applyOp_nextId_mono st op)
      (Nat.le_trans (ih (applyOp st op)) (Nat.le_refl _))

/-- The ids handed out along a request sequence are the consecutive block
starting at the current counter value, and the counter ends past it. -/
theorem createdIds_range : ∀ (ops : List Op) (st : Store),
    createdIds st ops = List.range' st.nextId (createdIds st ops).length ∧
    (runOps st ops).nextId = st.nextId + (createdIds st ops).length := by
  intro ops
  induction ops with
  | nil =>
    intro st
    exact ⟨rfl, by simp [runOps, createdIds]⟩
  | cons op ops ih =>
    intro st
    have hrun : runOps st (op :: ops) = runOps (applyOp st op) ops := by
      simp [runOps]
    cases op with
    | create req now =>
      rcases createTask_cases st req now with ⟨e, _, hc⟩ | ⟨_, _, _, hc⟩
      · have hred : createdIds st (.create req now :: ops) = createdIds st ops := by
          simp only [createdIds, hc]
        have hst : applyOp st (.create req now) = st := by
          show (createTask st req now).2 = st
          rw [hc]
        rw [hred, hrun, hst]
        exact ih st
      · set st2 : Store :=
          { tasks := st.tasks ++ [newTaskOf st req now], nextId := st.nextId + 1 } with hst2
        have hred : createdIds st (.create req now :: ops) =
            (newTaskOf st req now).id :: createdIds st2 ops := by
          simp only [createdIds, hc]
        have hst : applyOp st (.create req now) = st2 := by
          show (createTask st req now).2 = st2
          rw [hc]
        obtain ⟨ih1, ih2⟩ := ih st2
        constructor
        · rw [hred, List.length_cons, List.range'_succ]
          have : (newTaskOf st req now).id = st.nextId := rfl
          rw [this]
          have h2 : st2.nextId = st.nextId + 1 := rfl
          rw [← h2, ← ih1]
        · rw [hrun, hst, ih2, hred, List.length_cons]
          have h2 : st2.nextId = st.nextId + 1 := rfl
          omega
    | list q =>
      have hred : createdIds st (.list q :: ops) = createdIds st ops := rfl
      rw [hred, hrun]
      exact ih st
    | get idStr =>
      have hred : createdIds st (.get idStr :: ops) = createdIds st ops := rfl
      rw [hred, hrun]
      exact ih st
    | stats =>
      have hred : createdIds st (.stats :: ops) = createdIds st ops := rfl
      rw [hred, hrun]
      exact ih st
    | update idStr req now =>
      have hred : createdIds st (.update idStr req now :: ops) =
          createdIds (applyOp st (.update idStr req now)) ops := rfl
      have hnid : (applyOp st (.update idStr req now)).nextId = st.nextId :=
        updateTask_nextId st idStr req now
      rw [hred, hrun, ← hnid]
      exact ih _
    | delete idStr =>
      have hred : createdIds st (.delete idStr :: ops) =
          createdIds (applyOp st (.delete idStr)) ops := rfl
      have hnid : (applyOp st (.delete idStr)).nextId = st.nextId :=
        deleteTask_nextId st idStr
      rw [hred, hrun, ← hnid]
      exact ih _

/-- When both required fields are truthy and the effective priority is
legal, create takes its success path. -/
theorem createTask_success {st : Store} {req : CreateReq} {now : Nat}
    (ht : jsTruthy req.title = true) (hd : jsTruthy req.description = true)
    (hp : jsToLower (req.priority.getD "medium") ∈ validPriorities) :
    createTask st req now =
      (.ok (newTaskOf st req now),
       { tasks := st.tasks ++ [newTaskOf st req now], nextId := st.nextId + 1 }) := by
  simp only [createTask]
  rw [if_neg (by simp [ht, hd]), if_pos hp]
  rfl

/-! ### The claims -/

/-- C1: For every Create request with a non-empty title and non-empty
description, and a priority that is either omitted or case-insensitively
one of low|medium|high, Create succeeds and the returned record has
status = "pending", priority equal to the lowercased supplied value (or
"medium" when omitted), title and description trimmed of
leading/trailing whitespace, and the record is appended to the end of
the collection. -/
theorem create_valid_succeeds (st : Store) (title description : String)
    (priorityOpt : Option String) (now : Nat)
    (ht : title ≠ "") (hd : description ≠ "")
    (hp : priorityOpt = none ∨ ∃ p, priorityOpt = some p ∧ jsToLower p ∈ validPriorities) :
    ∃ t : Task,
      createTask st ⟨some title, some description, priorityOpt⟩ now =
        (.ok t, { tasks := st.tasks ++ [t], nextId := st.nextId + 1 }) ∧
      t.status = "pending" ∧
      t.priority = (match priorityOpt with | none => "medium" | some p => jsToLower p) ∧
      t.title = jsTrim title ∧ t.description = jsTrim description ∧
      t.id = st.nextId ∧ t.createdAt = now ∧ t.updatedAt = now := by
  have hmem : jsToLower (priorityOpt.getD "medium") ∈ validPriorities := by
    rcases hp with rfl | ⟨p, rfl, hm⟩
    · decide
    · simpa using hm
  refine ⟨newTaskOf st ⟨some title, some description, priorityOpt⟩ now,
    createTask_success (jsTruthy_some.mpr ht) (jsTruthy_some.mpr hd) hmem,
    rfl, ?_, rfl, rfl, rfl, rfl, rfl⟩
  rcases hp with rfl | ⟨p, rfl, _⟩ <;> rfl

theorem create_valid_succeeds_witness :
    ∃ t : Task,
      createTask (initialStore 0) ⟨some "  New Task ", some "Do it", some "HIGH"⟩ 9 =
        (.ok t, { tasks := (initialStore 0).tasks ++ [t], nextId := (initialStore 0).nextId + 1 }) ∧
      t.status = "pending" ∧
      t.priority = (match (some "HIGH" : Option String) with
        | none => "medium" | some p => jsToLower p) ∧
      t.title = jsTrim "  New Task " ∧ t.description = jsTrim "Do it" ∧
      t.id = (initialStore 0).nextId ∧ t.createdAt = 9 ∧ t.updatedAt = 9 :=
  create_valid_succeeds (initialStore 0) "  New Task " "Do it" (some "HIGH") 9
    (by decide) (by decide) (.inr ⟨"HIGH", rfl, by decide⟩)

/-- C2: For every Get request, the supplied identifier is parsed as an
integer and the task whose id equals that integer is returned; a
non-numeric identifier matches nothing, and whenever no task matches,
Get fails with NotFound (HTTP 404, message "Task not found") and the
store is unchanged. -/
theorem get_contract (st : Store) (idStr : String) :
    (∀ t, getTask st idStr = .ok t → t ∈ st.tasks ∧ parseIntJS idStr = some (t.id : Int)) ∧
    ((∃ t ∈ st.tasks, parseIntJS idStr = some (t.id : Int)) →
      ∃ t ∈ st.tasks, getTask st idStr = .ok t ∧ parseIntJS idStr = some (t.id : Int)) ∧
    (parseIntJS idStr = none → getTask st idStr = .error .notFound) ∧
    ((∀ t ∈ st.tasks, parseIntJS idStr ≠ some (t.id : Int)) →
      getTask st idStr = .error .notFound) ∧
    ApiError.notFound.httpStatus = 404 ∧ ApiError.notFound.message = "Task not found" ∧
    applyOp st (.get idStr) = st := by
  refine ⟨?_, ?_, ?_, ?_, rfl, rfl, rfl⟩
  · intro t hok
    unfold getTask at hok
    split at hok
    · exact absurd hok (by simp)
    · rename_i t2 hf
      have hf2 : findTaskById st.tasks idStr = some t2 := hf
      injection hok with hok
      subst hok
      exact ⟨List.mem_of_find?_eq_some hf2, idMatches_iff.mp (List.find?_some hf2)⟩
  · rintro ⟨t, htmem, htid⟩
    unfold getTask
    split
    · rename_i hf
      have hf2 : findTaskById st.tasks idStr = none := hf
      have := List.find?_eq_none.mp hf2 t htmem
      exact absurd (idMatches_iff.mpr htid) this
    · rename_i t2 hf
      have hf2 : findTaskById st.tasks idStr = some t2 := hf
      exact ⟨t2, List.mem_of_find?_eq_some hf2, rfl, idMatches_iff.mp (List.find?_some hf2)⟩
  · intro hparse
    unfold getTask
    split
    · rfl
    · rename_i t2 hf
      have := idMatches_iff.mp (List.find?_some (hf : findTaskById st.tasks idStr = some t2))
      rw [hparse] at this
      exact absurd this (by simp)
  · intro hnone
    unfold getTask
    split
    · rfl
    · rename_i t2 hf
      have hf2 : findTaskById st.tasks idStr = some t2 := hf
      exact absurd (idMatches_iff.mp (List.find?_some hf2))
        (hnone t2 (List.mem_of_find?_eq_some hf2))

theorem get_contract_witness :
    (∃ t ∈ (initialStore 0).tasks,
      getTask (initialStore 0) "1" = .ok t ∧ parseIntJS "1" = some (t.id : Int)) ∧
    getTask (initialStore 0) "abc" = .error .notFound ∧
    getTask (initialStore 0) "999" = .error .notFound := by
  refine ⟨?_, ?_, ?_⟩
  · exact (get_contract (initialStore 0) "1").2.1 ⟨seedTask1 0, by decide, by decide⟩
  · exact (get_contract (initialStore 0) "abc").2.2.1 (by decide)
  · exact (get_contract (initialStore 0) "999").2.2.2.1 (by decide)

/-- C3: In every reachable store state, Stats() returns a total equal to
the current collection length, and the sum of the three per-status
counts equals total, and the sum of the three per-priority counts
equals total. -/
theorem stats_partition (st : Store) (h : Reachable st) :
    (getStats st).total = st.tasks.length ∧
    (getStats st).pending + (getStats st).inProgress + (getStats st).completed
      = (getStats st).total ∧
    (getStats st).high + (getStats st).medium + (getStats st).low
      = (getStats st).total := by
  have hwf := reachable_wf h
  refine ⟨rfl, ?_, ?_⟩
  · exact filter_three_partition st.tasks (fun t => t.status)
      "pending" "in-progress" "completed" (by decide) (by decide) (by decide)
      (fun t ht => by
        have := hwf.statusOk t ht
        simp only [validStatuses, List.mem_cons, List.not_mem_nil, or_false] at this
        exact this)
  · exact filter_three_partition st.tasks (fun t => t.priority)
      "high" "medium" "low" (by decide) (by decide) (by decide)
      (fun t ht => by
        have := hwf.priorityOk t ht
        simp only [validPriorities, List.mem_cons, List.not_mem_nil, or_false] at this
        tauto)

theorem stats_partition_witness :
    (getStats (initialStore 0)).total = (initialStore 0).tasks.length ∧
    (getStats (initialStore 0)).pending + (getStats (initialStore 0)).inProgress +
      (getStats (initialStore 0)).completed = (getStats (initialStore 0)).total ∧
    (getStats (initialStore 0)).high + (getStats (initialStore 0)).medium +
      (getStats (initialStore 0)).low = (getStats (initialStore 0)).total :=
  stats_partition (initialStore 0) (Reachable.init 0)

/-- C4: For every sequence of operations, the id values issued by
successive successful Create calls are strictly increasing starting at 3
and are never repeated, including after a Delete removes a task;
consequently in every reachable store state there is at most one task
per id.  (A successful create hands out exactly the counter value and
bumps the counter, the counter starts at 3, never decreases across any
request sequence, and stays strictly above every stored id, so issued
ids strictly increase and never recur; pairwise-distinct ids give at
most one task per id.) -/
theorem ids_strictly_increasing (st : Store) (h : Reachable st) :
    st.tasks.Pairwise (fun a b => a.id ≠ b.id) ∧
    (∀ t ∈ st.tasks, t.id < st.nextId) ∧
    3 ≤ st.nextId ∧
    (∀ now0, (initialStore now0).nextId = 3) ∧
    (∀ req now t st2, createTask st req now = (.ok t, st2) →
      t.id = st.nextId ∧ st2.nextId = st.nextId + 1) ∧
    (∀ ops, st.nextId ≤ (runOps st ops).nextId) := by
  have hwf := reachable_wf h
  refine ⟨hwf.distinct, hwf.idLt, hwf.nextGe, fun _ => rfl, ?_,
    fun ops => runOps_nextId_mono st ops⟩
  intro req now t st2 hc
  rcases createTask_cases st req now with ⟨e, _, hc2⟩ | ⟨_, _, _, hc2⟩
  · rw [hc2] at hc
    exact absurd hc (by simp)
  · rw [hc2] at hc
    injection hc with h1 h2
    injection h1 with h1
    subst h1
    subst h2
    exact ⟨rfl, rfl⟩

theorem ids_strictly_increasing_witness :
    (initialStore 0).tasks.Pairwise (fun a b => a.id ≠ b.id) ∧
    ({ id := 3, title := "A", description := "B", status := "pending", priority := "medium",
       createdAt := 1, updatedAt := 1 } : Task).id = (initialStore 0).nextId := by
  have h := ids_strictly_increasing (initialStore 0) (Reachable.init 0)
  refine ⟨h.1, (h.2.2.2.2.1 ⟨some "A", some "B", none⟩ 1
    { id := 3, title := "A", description := "B", status := "pending", priority := "medium",
      createdAt := 1, updatedAt := 1 }
    { tasks := [seedTask1 0, seedTask2 0,
        { id := 3, title := "A", description := "B", status := "pending", priority := "medium",
          createdAt := 1, updatedAt := 1 }], nextId := 4 } (by rfl)).1⟩

/-- C5: For every existing task id, an Update in which each of title,
description, status, and priority is either absent or an empty string
succeeds, refreshes updatedAt, and leaves every other field of that task
(and every other task) unchanged; an empty-string value for a field is
treated as "not supplied" (a no-op, not a ValidationError), and
updatedAt is refreshed on every successful Update even when no field
changes. -/
theorem update_empty_noop (st : Store) (idStr : String) (req : UpdateReq) (now : Nat)
    (task : Task) (hfind : findTaskById st.tasks idStr = some task)
    (ht : req.title = none ∨ req.title = some "")
    (hd : req.description = none ∨ req.description = some "")
    (hs : req.status = none ∨ req.status = some "")
    (hp : req.priority = none ∨ req.priority = some "") :
    ∃ pre post, st.tasks = pre ++ task :: post ∧
      updateTask st idStr req now =
        (.ok { task with updatedAt := now },
         { st with tasks := pre ++ { task with updatedAt := now } :: post }) := by
  have jt : jsTruthy req.title = false := jsTruthy_eq_false.mpr ht
  have jd : jsTruthy req.description = false := jsTruthy_eq_false.mpr hd
  have js : jsTruthy req.status = false := jsTruthy_eq_false.mpr hs
  have jp : jsTruthy req.priority = false := jsTruthy_eq_false.mpr hp
  obtain ⟨pre, post, hl, hpt, hpre⟩ := find?_split hfind
  refine ⟨pre, post, hl, ?_⟩
  show updateTask st idStr req now = _
  unfold updateTask
  rw [hfind]
  simp only [js, jp, Bool.false_and, Bool.false_eq_true, if_false]
  rw [hl, updateFirst_append_cons task post hpre hpt,
    applyUpdate_noop now task jt jd js jp]

theorem update_empty_noop_witness :
    ∃ pre post, (initialStore 0).tasks = pre ++ seedTask1 0 :: post ∧
      updateTask (initialStore 0) "1" ⟨none, some "", none, some ""⟩ 7 =
        (.ok { seedTask1 0 with updatedAt := 7 },
         { initialStore 0 with tasks := pre ++ { seedTask1 0 with updatedAt := 7 } :: post }) :=
  update_empty_noop (initialStore 0) "1" ⟨none, some "", none, some ""⟩ 7 (seedTask1 0)
    (by decide) (.inl rfl) (.inr rfl) (.inl rfl) (.inr rfl)

theorem findIdx?_eq_none {p : Task → Bool} : ∀ {l : List Task} (i : Nat),
    (∀ u ∈ l, p u = false) → List.findIdx? p l i = none
  | [], _, _ => rfl
  | a :: l, i, h => by
    have ha : p a = false := h a (List.mem_cons_self a l)
    simp only [List.findIdx?, ha, Bool.false_eq_true, if_false]
    exact findIdx?_eq_none (i + 1) fun u hu => h u (List.mem_cons_of_mem a hu)

/-- C6: For every id, a successful Delete(id) removes exactly that
record from the collection and returns the removed record's full prior
state, and any Get(id) performed after Delete(id) (with no intervening
Create) fails with NotFound; Delete of an absent id fails with
NotFound. -/
theorem delete_contract (st : Store) (idStr : String)
    (hdist : st.tasks.Pairwise fun a b => a.id ≠ b.id) :
    (∀ t st2, deleteTask st idStr = (.ok t, st2) →
      idMatches idStr t = true ∧ st2.nextId = st.nextId ∧
      (∃ pre post, st.tasks = pre ++ t :: post ∧ st2.tasks = pre ++ post) ∧
      getTask st2 idStr = .error .notFound) ∧
    ((∀ t ∈ st.tasks, idMatches idStr t = false) →
      deleteTask st idStr = (.error .notFound, st)) := by
  constructor
  · intro t st2 hdel
    unfold deleteTask at hdel
    split at hdel
    · exact absurd hdel (by simp)
    rename_i i hidx
    split at hdel
    · exact absurd hdel (by simp)
    rename_i t2 hget
    injection hdel with h1 h2
    injection h1 with h1
    subst h1
    subst h2
    obtain ⟨pre, tf, post, hl, hlen, hpt, hpre⟩ := findIdx?_split hidx
    have hi : i = pre.length := by omega
    subst hi
    rw [hl, get?_append_cons] at hget
    injection hget with hget
    subst hget
    have herase : st.tasks.eraseIdx pre.length = pre ++ post := by
      rw [hl, eraseIdx_append_cons]
    refine ⟨hpt, rfl, ⟨pre, post, hl, herase⟩, ?_⟩
    show getTask { st with tasks := st.tasks.eraseIdx pre.length } idStr = .error .notFound
    have hnone : (pre ++ post).find? (idMatches idStr) = none := by
      rw [List.find?_eq_none]
      intro u hu
      rcases List.mem_append.mp hu with h1 | h1
      · simp [hpre u h1]
      · intro hum
        have h2 := idMatches_iff.mp hum
        have h3 := idMatches_iff.mp hpt
        have hid : u.id = tf.id := by
          rw [h2] at h3
          exact Nat.cast_injective (Option.some.injEq _ _ ▸ h3 : ((u.id : Int)) = (tf.id : Int))
        have hdist2 := hl ▸ hdist
        rw [List.pairwise_append] at hdist2
        have := (List.pairwise_cons.mp hdist2.2.1).1 u h1
        exact this hid.symm
    unfold getTask findTaskById
    rw [show ({ st with tasks := st.tasks.eraseIdx pre.length } : Store).tasks
      = pre ++ post from herase, hnone]
  · intro hnomatch
    unfold deleteTask
    rw [findIdx?_eq_none 0 hnomatch]

theorem delete_contract_witness :
    (deleteTask (initialStore 0) "1").2.nextId = (initialStore 0).nextId ∧
    getTask (deleteTask (initialStore 0) "1").2 "1" = .error .notFound ∧
    deleteTask (initialStore 0) "999" = (.error .notFound, initialStore 0) := by
  have h := delete_contract (initialStore 0) "1" (by decide)
  have h9 := delete_contract (initialStore 0) "999" (by decide)
  have hdel : deleteTask (initialStore 0) "1" =
      (.ok (seedTask1 0), { tasks := [seedTask2 0], nextId := 3 }) := by rfl
  have hc := h.1 (seedTask1 0) { tasks := [seedTask2 0], nextId := 3 } hdel
  refine ⟨?_, ?_, h9.2 (by decide)⟩
  · rw [hdel]
    exact hc.2.1
  · rw [hdel]
    exact hc.2.2.2

/-- C7: For every store state and every List call: with no filter given,
List returns the full collection in insertion order; with a status
and/or priority filter given, List returns exactly the tasks whose
status and/or priority case-insensitively equal the filter value(s), in
insertion order, and List never modifies the store. -/
theorem list_contract (st : Store) (q : ListQuery) :
    applyOp st (.list q) = st ∧
    (listTasks st q).Sublist st.tasks ∧
    (q.status = none → q.priority = none → listTasks st q = st.tasks) ∧
    (∀ s, q.status = some s → s ≠ "" → q.priority = none →
      listTasks st q = st.tasks.filter fun t => jsToLower t.status == jsToLower s) ∧
    (∀ p, q.priority = some p → p ≠ "" → q.status = none →
      listTasks st q = st.tasks.filter fun t => jsToLower t.priority == jsToLower p) ∧
    (∀ s p, q.status = some s → s ≠ "" → q.priority = some p → p ≠ "" →
      listTasks st q = st.tasks.filter fun t =>
        (jsToLower t.status == jsToLower s) && (jsToLower t.priority == jsToLower p)) := by
  refine ⟨rfl, ?_, ?_, ?_, ?_, ?_⟩
  · unfold listTasks
    split
    · split
      · exact ((List.filter_sublist _).trans (List.filter_sublist _))
      · exact List.filter_sublist _
    · split
      · exact List.filter_sublist _
      · exact List.Sublist.refl _
  · intro hs hp
    simp [listTasks, hs, hp, jsTruthy]
  · intro s hs hne hp
    simp [listTasks, hs, hp, jsTruthy_some.mpr hne, show jsTruthy none = false from rfl]
  · intro p hp hne hs
    simp [listTasks, hp, hs, jsTruthy_some.mpr hne, show jsTruthy none = false from rfl]
  · intro s p hs hsne hp hpne
    simp only [listTasks, hs, hp, jsTruthy_some.mpr hsne, jsTruthy_some.mpr hpne, if_true,
      Option.getD_some, List.filter_filter]
    exact List.filter_congr fun t _ => by rw [Bool.and_comm]

theorem list_contract_witness :
    listTasks (initialStore 0) ⟨none, none⟩ = (initialStore 0).tasks ∧
    listTasks (initialStore 0) ⟨some "PENDING", none⟩ =
      (initialStore 0).tasks.filter (fun t => jsToLower t.status == jsToLower "PENDING") ∧
    listTasks (initialStore 0) ⟨some "pending", some "HIGH"⟩ =
      (initialStore 0).tasks.filter (fun t =>
        (jsToLower t.status == jsToLower "pending") &&
        (jsToLower t.priority == jsToLower "HIGH")) := by
  refine ⟨(list_contract (initialStore 0) ⟨none, none⟩).2.2.1 rfl rfl,
    (list_contract (initialStore 0) ⟨some "PENDING", none⟩).2.2.2.1 "PENDING" rfl
      (by decide) rfl,
    (list_contract (initialStore 0) ⟨some "pending", some "HIGH"⟩).2.2.2.2.2 "pending" "HIGH"
      rfl (by decide) rfl (by decide)⟩

/-- C8 counterexample: a Create request whose title is a single space is
accepted (the truthy check sees a non-empty string), and the stored task
has an empty title after trimming — so not every reachable state has
only non-empty titles, and a title that is empty after trimming does not
cause a ValidationError. -/
theorem create_whitespace_counterexample :
    (createTask (initialStore 0) ⟨some " ", some "desc", none⟩ 1).1 =
      .ok { id := 3, title := "", description := "desc", status := "pending",
            priority := "medium", createdAt := 1, updatedAt := 1 } ∧
    ∃ t ∈ ((createTask (initialStore 0) ⟨some " ", some "desc", none⟩ 1).2).tasks,
      t.title = "" := by
  constructor
  · rfl
  · exact ⟨{ id := 3, title := "", description := "desc", status := "pending",
             priority := "medium", createdAt := 1, updatedAt := 1 }, by decide, rfl⟩

/-- C8 (amended): In every reachable store state, every task's title and
description is a string trimmed of leading/trailing whitespace, though
possibly empty; a Create request whose title or description is missing
or is the empty string fails with ValidationError (HTTP 400) and adds no
task, while a whitespace-only value passes validation and is stored as
the empty string. -/
theorem title_desc_trimmed (st : Store) (h : Reachable st) :
    (∀ t ∈ st.tasks,
      (∃ s : String, t.title = jsTrim s) ∧ ∃ s : String, t.description = jsTrim s) ∧
    (∀ req now, (jsTruthy req.title = false ∨ jsTruthy req.description = false) →
      createTask st req now = (.error .requiredFields, st)) ∧
    ApiError.requiredFields.httpStatus = 400 := by
  have hwf := reachable_wf h
  refine ⟨fun t ht => ⟨hwf.titleTrim t ht, hwf.descTrim t ht⟩, ?_, rfl⟩
  intro req now hfals
  unfold createTask
  rw [if_pos]
  rcases hfals with h1 | h1 <;> simp [h1]

theorem title_desc_trimmed_witness :
    (∃ s : String, (seedTask1 0).title = jsTrim s) ∧
    createTask (initialStore 0) ⟨some "A", none, none⟩ 1 =
      (.error .requiredFields, initialStore 0) := by
  have h := title_desc_trimmed (initialStore 0) (Reachable.init 0)
  exact ⟨(h.1 (seedTask1 0) (by decide)).1, h.2.1 ⟨some "A", none, none⟩ 1 (.inr rfl)⟩

/-- C9: Update is atomic on validation failure: for every existing task
id, if Update fails with ValidationError (a supplied non-empty status
not in pending|in-progress|completed, or a supplied non-empty priority
not in low|medium|high), then the entire store — including that task's
updatedAt — is exactly as it was before the call. -/
theorem update_validation_atomic (st : Store) (idStr : String) (req : UpdateReq) (now : Nat)
    (task : Task) (hfind : findTaskById st.tasks idStr = some task)
    (hbad : (jsTruthy req.status = true ∧ jsToLower (req.status.getD "") ∉ validStatuses) ∨
            (jsTruthy req.priority = true ∧ jsToLower (req.priority.getD "") ∉ validPriorities)) :
    ∃ e, (e = ApiError.badStatus ∨ e = ApiError.badPriority) ∧ e.httpStatus = 400 ∧
      updateTask st idStr req now = (.error e, st) := by
  unfold updateTask
  rw [hfind]
  dsimp only
  by_cases hst : (jsTruthy req.status &&
      !(jsToLower (req.status.getD "") ∈ validStatuses : Bool)) = true
  · exact ⟨.badStatus, .inl rfl, rfl, by rw [if_pos hst]⟩
  · rcases hbad with ⟨h1, h2⟩ | ⟨h1, h2⟩
    · exact absurd (by simp [h1, h2]) hst
    · have hpr : (jsTruthy req.priority &&
          !(jsToLower (req.priority.getD "") ∈ validPriorities : Bool)) = true := by
        simp [h1, h2]
      exact ⟨.badPriority, .inr rfl, rfl, by rw [if_neg hst, if_pos hpr]⟩

theorem update_validation_atomic_witness :
    ∃ e, (e = ApiError.badStatus ∨ e = ApiError.badPriority) ∧ e.httpStatus = 400 ∧
      updateTask (initialStore 0) "1" ⟨none, none, some "bogus", none⟩ 7 =
        (.error e, initialStore 0) :=
  update_validation_atomic (initialStore 0) "1" ⟨none, none, some "bogus", none⟩ 7
    (seedTask1 0) (by decide) (.inl ⟨by decide, by decide⟩)

/-- C10: A failed Create consumes no id: the id counter advances only on
successful creation, so for every sequence of operations the ids of
successfully created tasks are exactly the consecutive integers
3, 4, 5, ... with no gaps, regardless of interleaved ValidationError
rejections. -/
theorem create_ids_consecutive :
    (∀ now0 ops, createdIds (initialStore now0) ops =
      List.range' 3 (createdIds (initialStore now0) ops).length) ∧
    (∀ st req now e, (createTask st req now).1 = .error e →
      (createTask st req now).2 = st) := by
  constructor
  · intro now0 ops
    exact (createdIds_range ops (initialStore now0)).1
  · intro st req now e h
    exact createTask_error_store h

theorem create_ids_consecutive_witness :
    createdIds (initialStore 0)
      [Op.create ⟨some "A", some "B", none⟩ 1, Op.create ⟨none, none, none⟩ 2,
       Op.create ⟨some "C", some "D", none⟩ 3] = [3, 4] ∧
    (createTask (initialStore 0) ⟨none, none, none⟩ 5).2 = initialStore 0 := by
  have h := create_ids_consecutive
  constructor
  · rw [h.1 0 [Op.create ⟨some "A", some "B", none⟩ 1, Op.create ⟨none, none, none⟩ 2,
      Op.create ⟨some "C", some "D", none⟩ 3]]
    rfl
  · exact h.2 (initialStore 0) ⟨none, none, none⟩ 5 .requiredFields rfl

end TaskApi
